import Mathlib

/-
Verification of the pomice protocol/session core against its specification.
Definitions are shallow embeddings of the Python source in `pomice/`:
pure functions become Lean functions, stateful methods become explicit
state-passing functions, raised exceptions become `Except` / explicit error
values, and `random`/wall-clock inputs become explicit parameters.
-/

/-! ## Lavalink version model (`pomice/models/version.py`) -/

/-- Lavalink semantic version triple (`LavalinkVersion` named tuple). -/
structure LavalinkVersion where
  major : Nat
  minor : Nat
  fix : Nat
  deriving DecidableEq, Repr

/-- `LavalinkVersion.__lt__` from the source: it returns False as soon as one
component of `self` exceeds the corresponding component of `other`, and True
otherwise.  Note this is a componentwise less-or-equal test (in particular it
is reflexive), not a lexicographic strict order. -/
def LavalinkVersion.lt (a b : LavalinkVersion) : Bool :=
  if a.major > b.major then false
  else if a.minor > b.minor then false
  else if a.fix > b.fix then false
  else true

/-- Strict lexicographic (major, minor, fix) order, written from the words of
the specification ("below the minimum supported major.minor.fix floor") to be
compared with the source comparison `LavalinkVersion.lt`. -/
def specLexBelow (a b : LavalinkVersion) : Prop :=
  a.major < b.major
    ∨ (a.major = b.major
        ∧ (a.minor < b.minor ∨ (a.minor = b.minor ∧ a.fix < b.fix)))

instance (a b : LavalinkVersion) : Decidable (specLexBelow a b) := by
  unfold specLexBelow
  infer_instance

/-! ## Version-string parsing (`VERSION_REGEX` in `pomice/pool.py`)

`VERSION_REGEX` is `(\d+)(?:\.(\d+))?(?:\.(\d+))?(?:[a-zA-Z0-9_-]+)?` used via
`re.match` (anchored at the start, the tail of the string may be anything), and
missing groups are read as 0 via `int(group or 0)`. -/

/-- Leading-digit span of a character list (the regex group for digits). -/
def spanDigits : List Char → List Char × List Char
  | [] => ([], [])
  | c :: cs =>
    if c.isDigit then
      let p := spanDigits cs
      (c :: p.1, p.2)
    else ([], c :: cs)

/-- Decimal value of a digit list (`int(...)`). -/
def digitsVal (ds : List Char) : Nat :=
  ds.foldl (fun n c => n * 10 + (c.toNat - 48)) 0

/-- One optional regex group matching a dot followed by at least one digit,
returning the parsed number and the remaining characters (unchanged when the
group does not participate). -/
def dotNumber : List Char → Option Nat × List Char
  | '.' :: rest =>
    match spanDigits rest with
    | ([], _) => (none, '.' :: rest)
    | (d, r) => (some (digitsVal d), r)
  | l => (none, l)

/-- `VERSION_REGEX.match(version)` followed by the `(major, minor, fix)`
extraction in `Node._handle_version_check`: `none` when the regex does not
match (the string does not start with a digit); unmatched minor/fix groups
default to 0. -/
def parseVersionTriple (s : String) : Option LavalinkVersion :=
  match spanDigits s.data with
  | ([], _) => none
  | (d1, r1) =>
    let p2 := dotNumber r1
    let p3 := dotNumber p2.2
    some ⟨digitsVal d1, p2.1.getD 0, p3.1.getD 0⟩

/-! ## Node connection state (`Node` in `pomice/pool.py`) -/

/-- Errors raised by the node connection paths modelled here
(`pomice/exceptions.py`). -/
inductive NodeError
  | LavalinkVersionIncompatible
  | NodeConnectionFailure
  deriving DecidableEq, Repr

/-- The slice of `Node`'s mutable state that the connect / version-check /
websocket-message paths read and write: `_available`, `_session_id`,
`_version`, plus whether the websocket is open and the listener task started. -/
structure NodeState where
  available : Bool
  session_id : Option String
  version : LavalinkVersion
  ws_connected : Bool
  listening : Bool
  deriving DecidableEq, Repr

/-- `Node.__init__`: `_available = False`, `_session_id = None`,
`_version = LavalinkVersion(0, 0, 0)`, no websocket, no listener task. -/
def initNode : NodeState :=
  { available := false
    session_id := none
    version := ⟨0, 0, 0⟩
    ws_connected := false
    listening := false }

/-- `Node._handle_version_check`: a version string ending in "-SNAPSHOT" is
assumed to be v4 and accepted; a string the regex cannot match marks the node
unavailable and raises `LavalinkVersionIncompatible`; otherwise the parsed
triple is stored and the node is rejected (unavailable + raise) exactly when
`LavalinkVersion.lt` against the floor `3.7.0` returns true. -/
def NodeState.handle_version_check (s : NodeState) (version : String) :
    NodeState × Option NodeError :=
  if ("-SNAPSHOT".data).isSuffixOf version.data then
    ({ s with version := ⟨4, 0, 0⟩ }, none)
  else
    match parseVersionTriple version with
    | none => ({ s with available := false }, some .LavalinkVersionIncompatible)
    | some v =>
      let s1 := { s with version := v }
      if LavalinkVersion.lt v ⟨3, 7, 0⟩ then
        ({ s1 with available := false }, some .LavalinkVersionIncompatible)
      else (s1, none)

/-- The fresh-connection path of `Node.connect` (reconnect = False), with the
websocket handshake outcome as an input.  The sequential body is: version
probe + `_handle_version_check` (may raise), websocket connect (may raise),
start the `_listen` task, and then set `_available = True` immediately —
without waiting for the `ready` websocket message, which is handled
asynchronously by `_handle_ws_msg`. -/
def NodeState.connect (s : NodeState) (version : String) (wsOk : Bool) :
    NodeState × Option NodeError :=
  match s.handle_version_check version with
  | (s1, some e) => (s1, some e)
  | (s1, none) =>
    if wsOk then
      let s2 := { s1 with ws_connected := true, listening := true }
      ({ s2 with available := true }, none)
    else (s1, some .NodeConnectionFailure)

/-- Inbound websocket payloads dispatched by `Node._handle_ws_msg`. -/
inductive WsMsg
  | stats
  | ready (sessionId : String)
  | event (guildId : Nat)
  | playerUpdate (guildId : Nat)
  deriving DecidableEq, Repr

/-- The effect of `Node._handle_ws_msg` on the state modelled here: only the
`ready` opcode writes `_session_id` (`stats` replaces the cached stats
snapshot and `event` / `playerUpdate` are forwarded to a player, none of which
touch `_available` or `_session_id`). -/
def NodeState.handle_ws_msg (s : NodeState) (m : WsMsg) : NodeState :=
  match m with
  | .ready sid => { s with session_id := some sid }
  | _ => s

/-! ## C1 / C2 theorems -/

/-- C1: the claim says `_handle_version_check` rejects exactly the versions
lexicographically below the 3.7.0 floor.  In fact `LavalinkVersion.__lt__` is a
componentwise less-or-equal test: the node rejects the version string "3.7.0"
itself (marking itself unavailable) although 3.7.0 is not below the floor —
contradicting the code's own error message "Lavalink version 3.7.0 or above is
required" — and accepts "2.8.1" although 2.8.1 is lexicographically below
3.7.0. -/
theorem version_check_floor_code_bug :
    ((initNode.handle_version_check "3.7.0").2 = some NodeError.LavalinkVersionIncompatible
      ∧ (initNode.handle_version_check "3.7.0").1.available = false
      ∧ ¬ specLexBelow ⟨3, 7, 0⟩ ⟨3, 7, 0⟩)
    ∧ ((initNode.handle_version_check "2.8.1").2 = none
      ∧ specLexBelow ⟨2, 8, 1⟩ ⟨3, 7, 0⟩) := by
  decide

/-- C2 counterexample: a successful fresh `Node.connect` (version accepted,
websocket handshake ok, no websocket message processed yet) is a reachable
execution point at which the node is already `available = true` while
`_session_id` is still unset, because `connect` flips `_available` right after
starting the listener task instead of waiting for the `ready` message. -/
theorem connect_available_before_ready_cex :
    (initNode.connect "4.0.0" true).1.available = true
      ∧ (initNode.connect "4.0.0" true).1.session_id = none := by
  decide

/-- Helper: `_handle_version_check` never touches `_session_id`. -/
theorem handle_version_check_session_id (s : NodeState) (v : String) :
    (s.handle_version_check v).1.session_id = s.session_id := by
  unfold NodeState.handle_version_check
  split
  · rfl
  · split
    · rfl
    · dsimp only
      split <;> rfl

/-- C2 (amended): `Node.connect` flips `_available` to true right after the
websocket handshake and the start of the listener task, without waiting for
the first `ready` message: a successful connect leaves `_session_id` exactly
as it was before (so a node fresh from `__init__` is observable with
`available = true` and `_session_id` unset), and `_session_id` is assigned
only by the `ready` branch of `_handle_ws_msg`. -/
theorem connect_sets_available_without_ready (s : NodeState) (v : String)
    (h : (s.connect v true).2 = none) :
    (s.connect v true).1.available = true
      ∧ (s.connect v true).1.session_id = s.session_id
      ∧ (∀ s2 : NodeState, ∀ sid,
          (s2.handle_ws_msg (WsMsg.ready sid)).session_id = some sid) := by
  have hs := handle_version_check_session_id s v
  unfold NodeState.connect at h ⊢
  rcases hv : s.handle_version_check v with ⟨s1, e⟩
  rw [hv] at h hs
  cases e with
  | some err => simp at h
  | none =>
    refine ⟨by simp, by simpa using hs, ?_⟩
    intro s2 sid
    rfl

/-- C2 witness: the amended theorem applied to the freshly initialised node
state and an accepted version string. -/
theorem connect_sets_available_without_ready_witness :
    (initNode.connect "4.0.0" true).1.available = true
      ∧ (initNode.connect "4.0.0" true).1.session_id = initNode.session_id
      ∧ (∀ s2 : NodeState, ∀ sid,
          (s2.handle_ws_msg (WsMsg.ready sid)).session_id = some sid) :=
  connect_sets_available_without_ready initNode "4.0.0" (by decide)

/-! ## Track model (`pomice/objects.py`) -/

/-- The command context attached to a track; `Track.__eq__` only reads
`ctx.message.id`, modelled as `message_id`. -/
structure Ctx where
  message_id : Nat
  deriving DecidableEq, Repr

/-- The fields of `objects.Track` read by the queue and by the play-resolution
path of `Player.play`.  The Python `original : Optional[Track]` self-reference
is modelled by the `track_id` of the stored resolved track — the only field
the source ever reads from it; `none` means the track is provider-sourced and
not yet resolved (`Track.__init__` sets `original = None` exactly for
spotify/apple-music tracks and `original = self` otherwise). -/
structure Track where
  track_id : String
  ctx : Option Ctx
  search_type : String
  isrc : Option String
  title : String
  author : String
  original : Option String
  deriving DecidableEq, Repr

/-- `Track.__eq__`: when both tracks carry a context, equality is
`track_id` equality plus context message-id equality; otherwise it is
`track_id` equality alone.  (Comparison against a non-Track value returns
False in the source; that branch has no counterpart in this typed model.) -/
def Track.eq (a b : Track) : Bool :=
  match a.ctx, b.ctx with
  | some ca, some cb => b.track_id == a.track_id && cb.message_id == ca.message_id
  | _, _ => b.track_id == a.track_id

/-! ## Queue model (`pomice/queue.py`) -/

/-- `LoopMode` enum (`pomice/enums.py`). -/
inductive LoopMode
  | TRACK
  | QUEUE
  deriving DecidableEq, Repr

/-- Queue exceptions (`pomice/exceptions.py`), plus the Python `IndexError`
that `list.pop()` raises on an empty list. -/
inductive QueueErr
  | QueueFull
  | QueueEmpty
  | IndexErr
  deriving DecidableEq, Repr

/-- The state of a `Queue`: `max_size`, the backing list `_queue`,
`_overflow`, `_loop_mode`, `_current_item`. -/
structure Queue where
  max_size : Option Nat
  queue : List Track
  overflow : Bool
  loop_mode : Option LoopMode
  current_item : Option Track
  deriving DecidableEq, Repr

/-- `Queue.is_full`: False when `max_size` is None, else `count >= max_size`. -/
def Queue.is_full (q : Queue) : Bool :=
  match q.max_size with
  | none => false
  | some m => decide (q.queue.length ≥ m)

/-- Membership `item in self._queue`, elementwise via `Track.__eq__`. -/
def trackMem (l : List Track) (item : Track) : Bool :=
  l.any (fun e => Track.eq item e)

/-- `self._queue.index(item)` (`Queue._index`): index of the first element
comparing equal to `item` under `Track.__eq__`; `none` models the ValueError
raised when the item is absent. -/
def trackIdx : List Track → Track → Option Nat
  | [], _ => none
  | e :: rest, item =>
    if Track.eq e item then some 0
    else (trackIdx rest item).map (· + 1)

/-- `Queue.put`: when the queue is full, either raise QueueFull (overflow
disabled) or first call `Queue._drop` — which is `self._queue.pop()`, removing
the LAST (most recently enqueued) element — and then append the new item at
the back.  `pop()` on an empty list raises IndexError (reachable only with
`max_size = some 0`). -/
def Queue.put (q : Queue) (item : Track) : Except QueueErr Queue :=
  if q.is_full then
    if !q.overflow then .error .QueueFull
    else
      match q.queue with
      | [] => .error .IndexErr
      | _ =>
        let q1 := { q with queue := q.queue.dropLast }
        .ok { q1 with queue := q1.queue ++ [item] }
  else .ok { q with queue := q.queue ++ [item] }

/-- Outcome of `Queue.get`: QueueEmpty, an unbounded self-recursion of the
source (see `Queue.get` below), or a returned item together with the new
queue state. -/
inductive GetResult
  | empty
  | diverge
  | ok (item : Option Track) (state : Queue)
  deriving DecidableEq, Repr

/-- `Queue.get`.  In track-loop mode the current item is returned before the
emptiness check, so an empty queue does not raise there.  In queue-loop mode,
when the current item is not a member of the queue the source calls `get` on
itself again in an unchanged state — an unbounded recursion, modelled by
`diverge` (also used for the index lookups the source guarantees by that same
membership test).  A current item that is a member is a real Track, hence
truthy, so the `if not self._current_item` seeding branch is skipped. -/
def Queue.get (q : Queue) : GetResult :=
  if q.loop_mode = some LoopMode.TRACK then
    .ok q.current_item q
  else if q.queue.isEmpty then .empty
  else if q.loop_mode = some LoopMode.QUEUE then
    match q.current_item with
    | none => .diverge
    | some c =>
      if !trackMem q.queue c then .diverge
      else
        match trackIdx q.queue c, q.queue with
        | some i, first :: rest =>
          let item := if i = q.queue.length - 1 then first
            else (first :: rest).getD (i + 1) c
          .ok (some item) { q with current_item := some item }
        | _, _ => .diverge
  else
    match q.queue with
    | [] => .empty
    | t :: rest => .ok (some t) { q with queue := rest, current_item := some t }

/-- `Queue.find_position`: first index of the item under `Track.__eq__`;
`error` models the ValueError when the item is absent. -/
def Queue.find_position (q : Queue) (item : Track) : Except Unit Nat :=
  match trackIdx q.queue item with
  | some i => .ok i
  | none => .error ()

/-- `Queue.__contains__`. -/
def Queue.mem (q : Queue) (item : Track) : Bool :=
  trackMem q.queue item

/-- A context-free track whose metadata fields are derived from its id, used
as concrete test data. -/
def mkTrack (id : String) : Track :=
  { track_id := id
    ctx := none
    search_type := "ytsearch"
    isrc := none
    title := id
    author := id
    original := some id }

deriving instance DecidableEq for Except

/-! ## C3: overflow policy of `Queue.put` -/

/-- Concrete full 2-slot drop-overflow queue holding [A, B]. -/
def qAB : Queue :=
  { max_size := some 2
    queue := [mkTrack "A", mkTrack "B"]
    overflow := true
    loop_mode := none
    current_item := none }

/-- C3 counterexample: a full 2-slot overflow queue holding [A, B] receives C.
The claim says the oldest element A is evicted first, so the result would be
[B, C]; the source's `Queue._drop` is `self._queue.pop()`, which removes the
newest element B, leaving [A, C]. -/
theorem put_drop_oldest_cex :
    Queue.put qAB (mkTrack "C") = .ok { qAB with queue := [mkTrack "A", mkTrack "C"] }
      ∧ [mkTrack "A", mkTrack "C"] ≠ [mkTrack "B", mkTrack "C"] := by
  decide

/-- C3 (amended): on a queue with `max_size = n > 0` and the drop overflow
policy (`overflow = true`) that already holds n tracks, `put t` never raises,
evicts the NEWEST (most recently enqueued, back) element first, then appends
`t` at the back; the resulting count is still n and the relative order of the
surviving elements (all but the old back element) is preserved — the result
list is exactly `q.queue.dropLast ++ [t]`. -/
theorem put_overflow_drops_newest (q : Queue) (t : Track) (n : Nat)
    (hm : q.max_size = some n) (hlen : q.queue.length = n) (hn : 0 < n)
    (hov : q.overflow = true) :
    Queue.put q t = .ok { q with queue := q.queue.dropLast ++ [t] }
      ∧ (q.queue.dropLast ++ [t]).length = n := by
  have hful : q.is_full = true := by
    simp [Queue.is_full, hm, hlen]
  have hne : q.queue ≠ [] := by
    intro h
    rw [h] at hlen
    simp at hlen
    omega
  constructor
  · simp only [Queue.put, hful, hov, Bool.not_true, if_true, if_false]
    cases hq : q.queue with
    | nil => exact absurd hq hne
    | cons a l => simp [hq]
  · simp [hlen]
    omega

/-- C3 witness: the amended theorem applied to the concrete full queue. -/
theorem put_overflow_drops_newest_witness :
    Queue.put qAB (mkTrack "C") = .ok { qAB with queue := qAB.queue.dropLast ++ [mkTrack "C"] }
      ∧ (qAB.queue.dropLast ++ [mkTrack "C"]).length = 2 :=
  put_overflow_drops_newest qAB (mkTrack "C") 2 rfl rfl (by decide) rfl

/-! ## C6: `Queue.get` on an empty queue -/

/-- Empty queue in track-loop mode with a remembered current item. -/
def qEmptyTrackLoop : Queue :=
  { max_size := none
    queue := []
    overflow := true
    loop_mode := some LoopMode.TRACK
    current_item := some (mkTrack "A") }

/-- Empty queue with no loop mode set. -/
def qEmptyNoLoop : Queue :=
  { max_size := none
    queue := []
    overflow := true
    loop_mode := none
    current_item := none }

/-- C6 counterexample: in track-loop mode `Queue.get` returns `_current_item`
before the emptiness check, so on an empty queue it does NOT raise QueueEmpty,
contradicting the claim that every loop mode raises. -/
theorem get_empty_track_mode_cex :
    Queue.get qEmptyTrackLoop = GetResult.ok (some (mkTrack "A")) qEmptyTrackLoop
      ∧ Queue.get qEmptyTrackLoop ≠ GetResult.empty := by
  decide

/-- C6 (amended): on a queue containing no items, `get` raises QueueEmpty in
the no-loop and queue-loop modes; in track-loop mode it instead returns
`_current_item` (possibly none) without raising and without changing state. -/
theorem get_empty_queue (q : Queue) (h : q.queue = []) :
    (q.loop_mode ≠ some LoopMode.TRACK → Queue.get q = GetResult.empty)
      ∧ (q.loop_mode = some LoopMode.TRACK →
          Queue.get q = GetResult.ok q.current_item q) := by
  refine ⟨fun hm => ?_, fun hm => ?_⟩ <;> simp [Queue.get, h, hm]

/-- C6 witness: the amended theorem applied to two concrete empty queues,
covering the raising mode and the non-raising track-loop mode. -/
theorem get_empty_queue_witness :
    Queue.get qEmptyNoLoop = GetResult.empty
      ∧ Queue.get qEmptyTrackLoop
          = GetResult.ok qEmptyTrackLoop.current_item qEmptyTrackLoop :=
  ⟨(get_empty_queue qEmptyNoLoop rfl).1 (by decide),
    (get_empty_queue qEmptyTrackLoop rfl).2 rfl⟩

/-! ## C7: queue-loop cycling -/

/-- Queue [A, B, C] in queue-loop mode with the cursor on A. -/
def qABC : Queue :=
  { max_size := none
    queue := [mkTrack "A", mkTrack "B", mkTrack "C"]
    overflow := true
    loop_mode := some LoopMode.QUEUE
    current_item := some (mkTrack "A") }

/-- The queue state after one `get` call (unchanged when `get` does not
return a value). -/
def getStep (q : Queue) : Queue :=
  match Queue.get q with
  | .ok _ r => r
  | _ => q

/-- The cyclic dequeue pattern B, C, A expected from `qABC`. -/
def cyc3 (n : Nat) : Track :=
  if n = 0 then mkTrack "B" else if n = 1 then mkTrack "C" else mkTrack "A"

/-- Helper: the state after n queue-loop `get` calls on `qABC` only moves the
cursor, cycling with period 3. -/
theorem qABC_iterate (n : Nat) :
    getStep^[n] qABC = { qABC with current_item := some (cyc3 ((n + 2) % 3)) } := by
  induction n with
  | zero => decide
  | succ n ih =>
    rw [Function.iterate_succ_apply', ih]
    have h3 : (n + 2) % 3 = 0 ∨ (n + 2) % 3 = 1 ∨ (n + 2) % 3 = 2 := by omega
    rcases h3 with h | h | h
    · have h2 : (n + 1 + 2) % 3 = 1 := by omega
      rw [h, h2]
      decide
    · have h2 : (n + 1 + 2) % 3 = 2 := by omega
      rw [h, h2]
      decide
    · have h2 : (n + 1 + 2) % 3 = 0 := by omega
      rw [h, h2]
      decide

/-- C7: on the queue [A, B, C] in queue-loop mode with the cursor at A, the
n-th successive `Queue.get` call (n = 0, 1, 2, …) returns B, C, A, B, C, …
cyclically — wrapping from the last element back to index 0 — and never
raises, never adds or removes an element: the resulting state keeps the queue
list [A, B, C] (hence the same size and contents) and only advances the
cursor. -/
theorem queue_loop_cycles (n : Nat) :
    Queue.get (getStep^[n] qABC)
      = GetResult.ok (some (cyc3 (n % 3)))
          { qABC with current_item := some (cyc3 (n % 3)) } := by
  rw [qABC_iterate]
  have h3 : n % 3 = 0 ∨ n % 3 = 1 ∨ n % 3 = 2 := by omega
  rcases h3 with h | h | h
  · have h2 : (n + 2) % 3 = 2 := by omega
    rw [h, h2]
    decide
  · have h2 : (n + 2) % 3 = 0 := by omega
    rw [h, h2]
    decide
  · have h2 : (n + 2) % 3 = 1 := by omega
    rw [h, h2]
    decide

/-! ## C10: track equality and queue lookups -/

/-- Helper: `trackIdx l item = some i` exactly when the list splits as
`pre ++ e :: suf` with `pre.length = i`, `e` comparing equal to `item` under
`Track.__eq__` and nothing in `pre` comparing equal. -/
theorem trackIdx_eq_some_iff (l : List Track) (item : Track) (i : Nat) :
    trackIdx l item = some i
      ↔ ∃ pre e suf, l = pre ++ e :: suf ∧ pre.length = i
          ∧ Track.eq e item = true ∧ ∀ y ∈ pre, Track.eq y item = false := by
  induction l generalizing i with
  | nil =>
    constructor
    · intro h
      simp [trackIdx] at h
    · rintro ⟨pre, e, suf, heq, -, -, -⟩
      exact absurd heq (by simp)
  | cons a l ih =>
    by_cases ha : Track.eq a item = true
    · simp only [trackIdx, ha, if_true]
      constructor
      · intro h
        have h0 : (0 : Nat) = i := by simpa using h
        subst h0
        exact ⟨[], a, l, rfl, rfl, ha, by simp⟩
      · rintro ⟨pre, e, suf, heq, hlen, he, hpre⟩
        cases pre with
        | nil =>
          simp at hlen
          simp [← hlen]
        | cons p ps =>
          have hp : Track.eq p item = false := hpre p (by simp)
          have hpa : a = p := by injection heq
          rw [← hpa] at hp
          rw [ha] at hp
          cases hp
    · simp only [Bool.not_eq_true] at ha
      simp only [trackIdx, ha, Bool.false_eq_true, if_false]
      constructor
      · intro h
        obtain ⟨j, hj, hji⟩ : ∃ j, trackIdx l item = some j ∧ j + 1 = i := by
          cases hx : trackIdx l item with
          | none => rw [hx] at h; simp at h
          | some j =>
            rw [hx] at h
            simp at h
            exact ⟨j, rfl, h⟩
        obtain ⟨pre, e, suf, heq, hlen, he, hpre⟩ := (ih j).1 hj
        refine ⟨a :: pre, e, suf, by simp [heq], by simp [hlen, hji], he, ?_⟩
        intro y hy
        rcases List.mem_cons.1 hy with rfl | hy2
        · exact ha
        · exact hpre y hy2
      · rintro ⟨pre, e, suf, heq, hlen, he, hpre⟩
        cases pre with
        | nil =>
          have hae : a = e := by injection heq
          rw [← hae] at he
          rw [ha] at he
          cases he
        | cons p ps =>
          have h2 : l = ps ++ e :: suf := by injection heq
          have hj : trackIdx l item = some ps.length :=
            (ih ps.length).2 ⟨ps, e, suf, h2, rfl, he, fun y hy => hpre y (by simp [hy])⟩
          rw [hj]
          simpa using hlen

/-- C10: two tracks compare equal under `Track.__eq__` exactly when their
`track_id` fields are equal and — whenever both carry a command context —
their contexts' message ids also match; and the queue's membership test and
`find_position` identify tracks through that comparison (first matching
element), not through object identity.  (The source's `False` answer for a
non-Track comparand is a dynamic-typing branch with no counterpart in this
typed model.) -/
theorem track_equality_spec :
    (∀ a b : Track, Track.eq a b = true
        ↔ (a.track_id = b.track_id
            ∧ ∀ ca cb, a.ctx = some ca → b.ctx = some cb →
                ca.message_id = cb.message_id))
    ∧ (∀ (q : Queue) (t : Track),
        Queue.mem q t = true ↔ ∃ e ∈ q.queue, Track.eq t e = true)
    ∧ (∀ (q : Queue) (t : Track) (i : Nat),
        Queue.find_position q t = .ok i
          ↔ ∃ pre e suf, q.queue = pre ++ e :: suf ∧ pre.length = i
              ∧ Track.eq e t = true ∧ ∀ y ∈ pre, Track.eq y t = false) := by
  refine ⟨?_, ?_, ?_⟩
  · intro a b
    rcases hca : a.ctx with _ | ca <;> rcases hcb : b.ctx with _ | cb <;>
      simp only [Track.eq, hca, hcb, beq_iff_eq, Bool.and_eq_true]
    · constructor
      · intro h
        exact ⟨h.symm, fun _ _ h1 _ => Option.noConfusion h1⟩
      · intro h
        exact h.1.symm
    · constructor
      · intro h
        exact ⟨h.symm, fun _ _ h1 _ => Option.noConfusion h1⟩
      · intro h
        exact h.1.symm
    · constructor
      · intro h
        exact ⟨h.symm, fun _ _ _ h2 => Option.noConfusion h2⟩
      · intro h
        exact h.1.symm
    · constructor
      · rintro ⟨h1, h2⟩
        refine ⟨h1.symm, ?_⟩
        rintro ca2 cb2 hca2 hcb2
        injection hca2 with hca2
        injection hcb2 with hcb2
        rw [← hca2, ← hcb2]
        exact h2.symm
      · rintro ⟨h1, h2⟩
        exact ⟨h1.symm, (h2 ca cb rfl rfl).symm⟩
  · intro q t
    simp [Queue.mem, trackMem, List.any_eq_true]
  · intro q t i
    constructor
    · intro h
      unfold Queue.find_position at h
      cases hx : trackIdx q.queue t with
      | none => rw [hx] at h; cases h
      | some j =>
        rw [hx] at h
        have hji : j = i := by injection h
        subst hji
        exact (trackIdx_eq_some_iff q.queue t j).1 hx
    · intro hex
      have hx := (trackIdx_eq_some_iff q.queue t i).2 hex
      simp [Queue.find_position, hx]

/-- Two tracks sharing a `track_id` but differing in every metadata field. -/
def tSameId1 : Track :=
  { track_id := "X"
    ctx := none
    search_type := "ytsearch"
    isrc := none
    title := "one"
    author := "a1"
    original := none }

/-- Companion to `tSameId1` with different metadata. -/
def tSameId2 : Track :=
  { tSameId1 with title := "two", author := "a2" }

/-- C10 witness: the equality characterisation applied to two structurally
different tracks with the same `track_id`: they compare equal. -/
theorem track_equality_spec_witness : Track.eq tSameId1 tSameId2 = true :=
  (track_equality_spec.1 tSameId1 tSameId2).mpr
    ⟨rfl, fun _ _ h _ => Option.noConfusion h⟩

/-! ## Player voice-state buffering (`pomice/player.py`) -/

/-- The value stored under the "event" key of `Player._voice_state`: a raw
payload dict from which `_dispatch_voice_update` reads "token" and "endpoint"
by direct key access; `none` models a missing (or null) key. -/
structure StoredEvent where
  token : Option String
  endpoint : Option String
  deriving DecidableEq, Repr

/-- The buffered `Player._voice_state` dict.  Only the keys "sessionId" and
"event" are ever stored, so the source's key-set test
`{"sessionId", "event"} != self._voice_state.keys()` is exactly "both fields
present". -/
structure VoiceState where
  sessionId : Option String
  event : Option StoredEvent
  deriving DecidableEq, Repr

/-- The voice PATCH payload sent to the node by `_dispatch_voice_update`:
token, endpoint and session id together. -/
structure RestVoiceCall where
  token : String
  endpoint : String
  sessionId : String
  deriving DecidableEq, Repr

/-- Python KeyError from a raw dict access. -/
inductive PyErr
  | KeyErr
  deriving DecidableEq, Repr

/-- `Player._dispatch_voice_update`: returns without any REST call unless both
halves are buffered; otherwise issues exactly one REST call whose payload is
read from the `voice_data` argument when given (there `event` is overridden;
the session id always comes from the buffered state, as at both call sites
`voice_data` carries the buffered session id unchanged).  A missing token or
endpoint in the used event dict is a raw-access KeyError. -/
def dispatch_voice_update (vs : VoiceState) (override : Option StoredEvent) :
    Except PyErr (List RestVoiceCall) :=
  match vs.sessionId, vs.event with
  | some sid, some ev =>
    let used := override.getD ev
    match used.token, used.endpoint with
    | some tok, some ep => .ok [⟨tok, ep, sid⟩]
    | _, _ => .error .KeyErr
  | _, _ => .ok []

/-- `Player.on_voice_server_update`: store the payload under "event", then
dispatch with the updated buffered state. -/
def on_voice_server_update (vs : VoiceState) (token : String)
    (endpoint : Option String) : VoiceState × Except PyErr (List RestVoiceCall) :=
  let vs1 : VoiceState := { vs with event := some ⟨some token, endpoint⟩ }
  (vs1, dispatch_voice_update vs1 none)

/-- A parsed VOICE_STATE_UPDATE payload: Discord's voice-state events carry a
session id and possibly a channel id; they normally carry no token and no
endpoint (those live in the voice-server update). -/
structure GVSData where
  session_id : String
  channel_id : Option Nat
  token : Option String
  endpoint : Option String
  deriving DecidableEq, Repr

/-- Result of `Player.on_voice_state_update`: the new buffered state, the REST
calls issued, and whether the player disconnected (no channel id, or channel
not found in the guild). -/
structure VSUResult where
  state : VoiceState
  calls : Except PyErr (List RestVoiceCall)
  disconnected : Bool
  deriving DecidableEq, Repr

/-- `Player.on_voice_state_update`: store the session id; with no channel id
or an unresolvable channel, disconnect and clear the buffer without any REST
call; with no token in the payload, return with the half-pair buffered and no
REST call; otherwise dispatch with the event overridden by this payload. -/
def on_voice_state_update (channelExists : Nat → Bool) (vs : VoiceState)
    (d : GVSData) : VSUResult :=
  let vs1 : VoiceState := { vs with sessionId := some d.session_id }
  match d.channel_id with
  | none => ⟨⟨none, none⟩, .ok [], true⟩
  | some ch =>
    if !channelExists ch then ⟨⟨none, none⟩, .ok [], true⟩
    else
      match d.token with
      | none => ⟨vs1, .ok [], false⟩
      | some _ => ⟨vs1, dispatch_voice_update vs1 (some ⟨d.token, d.endpoint⟩), false⟩

/-! ## C4 theorems -/

/-- C4 counterexample: with the server-update event already buffered, the
voice-state update that completes the pair — carrying, as Discord voice-state
payloads do, no token — issues ZERO REST calls, although the claim says the
call that completes the pair issues exactly one REST call; the update is only
buffered and no call happens until a further server update arrives. -/
theorem voice_pair_completion_cex :
    (on_voice_server_update ⟨none, none⟩ "tok" (some "ep")).2 = .ok []
      ∧ (on_voice_state_update (fun _ => true)
            (on_voice_server_update ⟨none, none⟩ "tok" (some "ep")).1
            ⟨"sess", some 1, none, none⟩).calls = .ok []
      ∧ (on_voice_state_update (fun _ => true)
            (on_voice_server_update ⟨none, none⟩ "tok" (some "ep")).1
            ⟨"sess", some 1, none, none⟩).state
          = ⟨some "sess", some ⟨some "tok", some "ep"⟩⟩ := by
  decide

/-- C4 (amended): partial voice state is buffered and never sent — a handler
invocation that leaves one half of the pair missing issues no REST call — and
a voice-server update received while the session id is buffered issues exactly
one REST call carrying token, endpoint and session id together; but a
voice-state update never completes the dispatch by itself unless it carries a
token (Discord voice-state payloads carry none), in which case the pair is
merely buffered.  The handlers store their half: the server update stores the
event payload, the state update stores the session id whenever the channel
resolves. -/
theorem voice_update_buffering (vs : VoiceState) (tok : String)
    (ep : Option String) (ce : Nat → Bool) (d : GVSData) :
    (vs.sessionId = none → (on_voice_server_update vs tok ep).2 = .ok [])
      ∧ (vs.event = none → (on_voice_state_update ce vs d).calls = .ok [])
      ∧ (∀ sid e, vs.sessionId = some sid → ep = some e →
          (on_voice_server_update vs tok ep).2 = .ok [⟨tok, e, sid⟩])
      ∧ (d.token = none → (on_voice_state_update ce vs d).calls = .ok [])
      ∧ (on_voice_server_update vs tok ep).1
          = { vs with event := some ⟨some tok, ep⟩ }
      ∧ (∀ ch, d.channel_id = some ch → ce ch = true →
          (on_voice_state_update ce vs d).state.sessionId = some d.session_id) := by
  refine ⟨?_, ?_, ?_, ?_, rfl, ?_⟩
  · intro h
    simp [on_voice_server_update, dispatch_voice_update, h]
  · intro h
    unfold on_voice_state_update
    cases d.channel_id with
    | none => rfl
    | some ch =>
      by_cases hce : ce ch = true <;> simp [hce]
      cases d.token with
      | none => rfl
      | some t => simp [dispatch_voice_update, h]
  · intro sid e hs he
    simp [on_voice_server_update, dispatch_voice_update, hs, he]
  · intro h
    unfold on_voice_state_update
    cases d.channel_id with
    | none => rfl
    | some ch =>
      by_cases hce : ce ch = true <;> simp [hce, h]
  · intro ch hch hce
    unfold on_voice_state_update
    rw [hch]
    simp [hce]
    cases d.token with
    | none => rfl
    | some t => rfl

/-- C4 witness: the amended theorem applied to a buffered session id "sess",
a server update with token "tok" and endpoint "ep", and a token-less
voice-state update, extracting the exactly-one-call conclusion. -/
theorem voice_update_buffering_witness :
    (on_voice_server_update ⟨some "sess", none⟩ "tok" (some "ep")).2
      = .ok [⟨"tok", "ep", "sess"⟩] :=
  (voice_update_buffering ⟨some "sess", none⟩ "tok" (some "ep") (fun _ => true)
      ⟨"sess", some 1, none, none⟩).2.2.1 "sess" "ep" rfl rfl

/-! ## C5: lazy track resolution in `Player.play` -/

/-- The ISRC search query built by `Player.play`:
`f"{track._search_type}:{track.isrc}"`. -/
def isrcQuery (t : Track) (i : String) : String :=
  t.search_type ++ ":" ++ i

/-- The fallback search query built by `Player.play`:
`f"{track._search_type}:{track.title} - {track.author}"`. -/
def fallbackQuery (t : Track) : String :=
  t.search_type ++ ":" ++ t.title ++ " - " ++ t.author

/-- Outcome of the resolution prefix of `Player.play`: the (possibly mutated)
track, the node search queries attempted in order, and either the
`encodedTrack` id put into the PATCH payload or a raised `TrackLoadError`. -/
structure PlayResolution where
  track : Track
  queries : List String
  result : Except Unit String
  deriving DecidableEq, Repr

/-- The lazy-resolution prefix of `Player.play`.  `search q` is the outcome of
`(await self._node.get_tracks(q))[0]` as observed by `play`: `none` covers
every failure the source catches (an exception from the node, a `None`
no-match result, an empty result list) and `some tid` is the first candidate's
`track_id`.  For an unresolved track (`original is None`): with an ISRC, the
ISRC query is attempted first (without one, the source bare-raises into the
fallback); a failed attempt falls through to the title-author query; a failure
of both raises TrackLoadError before any mutation; a success mutates the
track in place, setting both `original` and `track_id`. -/
def play_resolve (search : String → Option String) (t : Track) : PlayResolution :=
  match t.original with
  | some _ => ⟨t, [], .ok t.track_id⟩
  | none =>
    match t.isrc with
    | some i =>
      match search (isrcQuery t i) with
      | some tid => ⟨{ t with original := some tid, track_id := tid }, [isrcQuery t i], .ok tid⟩
      | none =>
        match search (fallbackQuery t) with
        | some tid =>
          ⟨{ t with original := some tid, track_id := tid },
            [isrcQuery t i, fallbackQuery t], .ok tid⟩
        | none => ⟨t, [isrcQuery t i, fallbackQuery t], .error ()⟩
    | none =>
      match search (fallbackQuery t) with
      | some tid =>
        ⟨{ t with original := some tid, track_id := tid }, [fallbackQuery t], .ok tid⟩
      | none => ⟨t, [fallbackQuery t], .error ()⟩

/-- C5: for an unresolved provider-sourced track (`original is None`), `play`
searches `<searchType>:<isrc>` first when an ISRC is present and uses its
first candidate; on failure of that attempt (or with no ISRC at all) it
searches `<searchType>:<title> - <author>` and uses its first candidate; if
every attempt fails it raises TrackLoadError leaving `original` and
`track_id` unchanged (still unresolved); on success the track is mutated in
place (`original` set, `track_id` set to the found id), and an
already-resolved track triggers no search at all. -/
theorem play_lazy_resolution (search : String → Option String) (t : Track) :
    (∀ i tid, t.original = none → t.isrc = some i →
        search (isrcQuery t i) = some tid →
        play_resolve search t
          = ⟨{ t with original := some tid, track_id := tid }, [isrcQuery t i], .ok tid⟩)
      ∧ (∀ i tid, t.original = none → t.isrc = some i →
          search (isrcQuery t i) = none → search (fallbackQuery t) = some tid →
          play_resolve search t
            = ⟨{ t with original := some tid, track_id := tid },
                [isrcQuery t i, fallbackQuery t], .ok tid⟩)
      ∧ (∀ tid, t.original = none → t.isrc = none →
          search (fallbackQuery t) = some tid →
          play_resolve search t
            = ⟨{ t with original := some tid, track_id := tid },
                [fallbackQuery t], .ok tid⟩)
      ∧ (t.original = none → (∀ i, t.isrc = some i → search (isrcQuery t i) = none) →
          search (fallbackQuery t) = none →
          (play_resolve search t).result = .error ()
            ∧ (play_resolve search t).track = t)
      ∧ (∀ o, t.original = some o →
          play_resolve search t = ⟨t, [], .ok t.track_id⟩) := by
  refine ⟨?_, ?_, ?_, ?_, ?_⟩
  · intro i tid ho hi hs
    simp only [play_resolve, ho, hi, hs]
  · intro i tid ho hi hs1 hs2
    simp only [play_resolve, ho, hi, hs1, hs2]
  · intro tid ho hi hs
    simp only [play_resolve, ho, hi, hs]
  · intro ho hi hs
    cases hx : t.isrc with
    | none =>
      simp only [play_resolve, ho, hx, hs]
      exact ⟨trivial, trivial⟩
    | some i =>
      simp only [play_resolve, ho, hx, hi i hx, hs]
      exact ⟨trivial, trivial⟩
  · intro o ho
    simp only [play_resolve, ho]

/-- Concrete search oracle for the C5 witness: only the title-author query
succeeds. -/
def searchW : String → Option String :=
  fun q => if q = "ytsearch:TITLE - AUTH" then some "RES" else none

/-- Concrete unresolved provider track with an ISRC for the C5 witness. -/
def tUnresolved : Track :=
  { track_id := "sp1"
    ctx := none
    search_type := "ytsearch"
    isrc := some "ISRC1"
    title := "TITLE"
    author := "AUTH"
    original := none }

/-- C5 witness: the theorem applied to a track whose ISRC search fails and
whose title-author search returns "RES": the track ends resolved with the
found id, after attempting the ISRC query first. -/
theorem play_lazy_resolution_witness :
    play_resolve searchW tUnresolved
      = ⟨{ tUnresolved with original := some "RES", track_id := "RES" },
          ["ytsearch:ISRC1", "ytsearch:TITLE - AUTH"], .ok "RES"⟩ :=
  (play_lazy_resolution searchW tUnresolved).2.1 "ISRC1" "RES" rfl rfl
    (by decide) (by decide)

/-! ## NodePool selection (`NodePool.get_best_node` in `pomice/pool.py`) -/

/-- The per-node data `get_best_node` reads: `_available`, the bound player
count `len(node.players)`, and the measured latency probe. -/
structure NodeBrief where
  identifier : String
  available : Bool
  players : Nat
  latency : ℚ
  deriving DecidableEq

/-- `NodeAlgorithm` enum (`pomice/enums.py`). -/
inductive NodeAlgorithm
  | by_ping
  | by_players
  deriving DecidableEq, Repr

/-- Pool-level errors (`pomice/exceptions.py`). -/
inductive PoolErr
  | NoNodesAvailable
  deriving DecidableEq, Repr

/-- Python `min(iterable, key=f)` over a non-empty iterable, as the running
fold the interpreter performs: a later element replaces the current best only
on a strictly smaller key, so the first minimal element wins ties. -/
def pyMin {α β : Type} [LinearOrder β] (f : α → β) (best : α) : List α → α
  | [] => best
  | y :: ys => pyMin f (if f y < f best then y else best) ys

/-- `NodePool.get_best_node`: filter the pool (in insertion order) down to the
available nodes, raise NoNodesAvailable when none remain, then take the
Python `min` keyed by measured latency (`by_ping`) or bound player count
(`by_players`).  (The ValueError branch for a foreign algorithm value has no
counterpart: the enum is closed here.) -/
def get_best_node (nodes : List NodeBrief) (algorithm : NodeAlgorithm) :
    Except PoolErr NodeBrief :=
  match nodes.filter (fun n => n.available) with
  | [] => .error .NoNodesAvailable
  | x :: xs =>
    match algorithm with
    | .by_ping => .ok (pyMin (fun n => n.latency) x xs)
    | .by_players => .ok (pyMin (fun n => n.players) x xs)

/-- Helper: the Python min is an element of its input, every earlier element
has a strictly larger key, and every element has a larger-or-equal key. -/
theorem pyMin_first {α β : Type} [LinearOrder β] (f : α → β) :
    ∀ (l : List α) (b : α), ∃ pre suf, b :: l = pre ++ pyMin f b l :: suf
      ∧ (∀ y ∈ pre, f (pyMin f b l) < f y)
      ∧ (∀ y ∈ b :: l, f (pyMin f b l) ≤ f y) := by
  intro l
  induction l with
  | nil =>
    intro b
    refine ⟨[], [], rfl, by simp, ?_⟩
    intro y hy
    rcases List.mem_cons.1 hy with rfl | hy2
    · exact le_refl _
    · cases hy2
  | cons y ys ih =>
    intro b
    by_cases hy : f y < f b
    · obtain ⟨pre, suf, hdec, hpre, hle⟩ := ih y
      have hm : pyMin f b (y :: ys) = pyMin f y ys := by
        simp [pyMin, if_pos hy]
      have hmy : f (pyMin f y ys) ≤ f y := hle y (by simp)
      refine ⟨b :: pre, suf, ?_, ?_, ?_⟩
      · rw [hm, List.cons_append, ← hdec]
      · intro z hz
        rw [hm]
        rcases List.mem_cons.1 hz with rfl | hz2
        · exact lt_of_le_of_lt hmy hy
        · exact hpre z hz2
      · intro z hz
        rw [hm]
        rcases List.mem_cons.1 hz with rfl | hz2
        · exact le_of_lt (lt_of_le_of_lt hmy hy)
        · exact hle z hz2
    · obtain ⟨pre, suf, hdec, hpre, hle⟩ := ih b
      have hm : pyMin f b (y :: ys) = pyMin f b ys := by
        simp [pyMin, if_neg hy]
      have hby : f b ≤ f y := le_of_not_lt hy
      cases pre with
      | nil =>
        rw [List.nil_append] at hdec
        injection hdec with h1 h2
        refine ⟨[], y :: ys, ?_, by simp, ?_⟩
        · rw [hm, ← h1, List.nil_append]
        · intro z hz
          rw [hm, ← h1]
          rcases List.mem_cons.1 hz with rfl | hz2
          · exact le_refl _
          rcases List.mem_cons.1 hz2 with rfl | hz3
          · exact hby
          · have hz4 : z ∈ b :: ys := List.mem_cons_of_mem b hz3
            have := hle z hz4
            rwa [← h1] at this
      | cons p ps =>
        rw [List.cons_append] at hdec
        injection hdec with h1 h2
        have hmb : f (pyMin f b ys) < f b := by
          have := hpre p (by simp)
          rwa [← h1] at this
        refine ⟨b :: y :: ps, suf, ?_, ?_, ?_⟩
        · rw [hm]
          simp only [List.cons_append]
          rw [← h2]
        · intro z hz
          rw [hm]
          rcases List.mem_cons.1 hz with h | hz2
          · rw [h]
            exact hmb
          · rcases List.mem_cons.1 hz2 with h | hz3
            · rw [h]
              exact lt_of_lt_of_le hmb hby
            · exact hpre z (List.mem_cons_of_mem p hz3)
        · intro z hz
          rw [hm]
          rcases List.mem_cons.1 hz with h | hz2
          · rw [h]
            exact hle b (by simp)
          · rcases List.mem_cons.1 hz2 with h | hz3
            · rw [h]
              exact le_trans (hle b (by simp)) hby
            · exact hle z (List.mem_cons_of_mem b hz3)

/-- Helper: the Python min is a member of the candidate list. -/
theorem pyMin_mem {α β : Type} [LinearOrder β] (f : α → β) (l : List α) (b : α) :
    pyMin f b l ∈ b :: l := by
  obtain ⟨pre, suf, hdec, -, -⟩ := pyMin_first f l b
  rw [hdec]
  simp

/-- C8: `get_best_node` raises NoNodesAvailable exactly when no node in the
pool is available; under `by_players` it returns an available node whose bound
player count is minimal among the available nodes, and that node is the FIRST
minimum in the pool's insertion-order iteration (every available node listed
before it has a strictly larger count); and no algorithm ever returns a node
whose available flag is false. -/
theorem get_best_node_spec (nodes : List NodeBrief) :
    (get_best_node nodes NodeAlgorithm.by_players = .error .NoNodesAvailable
        ↔ nodes.filter (fun n => n.available) = [])
      ∧ (∀ r, get_best_node nodes NodeAlgorithm.by_players = .ok r →
          r.available = true
            ∧ (∀ m ∈ nodes, m.available = true → r.players ≤ m.players)
            ∧ ∃ pre suf, nodes.filter (fun n => n.available) = pre ++ r :: suf
                ∧ ∀ y ∈ pre, r.players < y.players)
      ∧ (∀ algorithm r, get_best_node nodes algorithm = .ok r →
          r.available = true) := by
  have hmem : ∀ z, z ∈ nodes.filter (fun n => n.available) → z.available = true :=
    fun z hz => (List.mem_filter.1 hz).2
  cases hf : nodes.filter (fun n => n.available) with
  | nil =>
    refine ⟨by simp [get_best_node, hf], ?_, ?_⟩
    · intro r h
      unfold get_best_node at h
      rw [hf] at h
      cases h
    · intro algorithm r h
      unfold get_best_node at h
      rw [hf] at h
      cases h
  | cons x xs =>
    rw [hf] at hmem
    refine ⟨by simp [get_best_node, hf], ?_, ?_⟩
    · intro r h
      unfold get_best_node at h
      rw [hf] at h
      have hr : pyMin (fun n => n.players) x xs = r := by
        injection h
      obtain ⟨pre, suf, hdec, hpre, hle⟩ := pyMin_first (fun n => n.players) xs x
      rw [hr] at hdec hpre hle
      refine ⟨?_, ?_, pre, suf, ?_, hpre⟩
      · exact hmem r (by rw [hdec]; simp)
      · intro m hm hav
        have hmf : m ∈ x :: xs := by
          rw [← hf]
          exact List.mem_filter.2 ⟨hm, hav⟩
        exact hle m hmf
      · exact hdec
    · intro algorithm r h
      unfold get_best_node at h
      rw [hf] at h
      cases algorithm with
      | by_ping =>
        have hr : pyMin (fun n => n.latency) x xs = r := by
          injection h
        exact hmem r (hr ▸ pyMin_mem (fun n => n.latency) xs x)
      | by_players =>
        have hr : pyMin (fun n => n.players) x xs = r := by
          injection h
        exact hmem r (hr ▸ pyMin_mem (fun n => n.players) xs x)

/-- Concrete pool for the C8 witness, with player counts 5, 2 and 8. -/
def poolW : List NodeBrief :=
  [⟨"n5", true, 5, 0⟩, ⟨"n2", true, 2, 0⟩, ⟨"n8", true, 8, 0⟩]

/-- C8 witness: on a pool with player counts 5, 2, 8 the selector returns the
node with 2 players, and the theorem certifies it available and minimal. -/
theorem get_best_node_spec_witness :
    get_best_node poolW NodeAlgorithm.by_players = .ok ⟨"n2", true, 2, 0⟩
      ∧ NodeBrief.available ⟨"n2", true, 2, 0⟩ = true
      ∧ ∀ m ∈ poolW, m.available = true →
          NodeBrief.players ⟨"n2", true, 2, 0⟩ ≤ m.players :=
  ⟨by decide,
    ((get_best_node_spec poolW).2.1 ⟨"n2", true, 2, 0⟩ (by decide)).1,
    ((get_best_node_spec poolW).2.1 ⟨"n2", true, 2, 0⟩ (by decide)).2.1⟩

/-! ## Exponential backoff (`ExponentialBackoff` in `pomice/utils.py`) -/

/-- The state of an `ExponentialBackoff`: `_base`, `_exp`, `_max`,
`_reset_time`.  `_last_invocation` is modelled by passing the elapsed interval
into `delay` directly. -/
structure BackoffState where
  base : ℚ
  exp : Nat
  max : Nat
  reset_time : ℚ
  deriving DecidableEq

/-- `ExponentialBackoff.__init__`: exponent 0, capped exponent 10, reset
threshold `base * 2 ** 11`. -/
def backoffInit (base : ℚ) : BackoffState :=
  { base := base, exp := 0, max := 10, reset_time := base * 2 ^ 11 }

/-- `ExponentialBackoff.delay`: `interval` is the monotonic time elapsed since
the previous invocation; when it strictly exceeds `_reset_time` the exponent
is reset to 0; the exponent is then bumped, capped at `_max`; the returned
delay is `uniform(0, base * 2 ** exp)`, modelled as `r * (base * 2 ** exp)`
for a unit-interval sample `r` (`uniform(0, x) = x * random()`; the node pool
uses the non-integral variant). -/
def BackoffState.delay (s : BackoffState) (interval r : ℚ) : ℚ × BackoffState :=
  let e0 := if s.reset_time < interval then 0 else s.exp
  let e1 := min (e0 + 1) s.max
  (r * (s.base * 2 ^ e1), { s with exp := e1 })

/-- A run of consecutive `delay` invocations, each given its elapsed interval
and its random sample. -/
def BackoffState.delays (s : BackoffState) : List (ℚ × ℚ) → BackoffState
  | [] => s
  | p :: ps => BackoffState.delays ((s.delay p.1 p.2).2) ps

/-- Helper: `delay` never changes `_base`, `_max` or `_reset_time`. -/
theorem delays_params (s : BackoffState) (l : List (ℚ × ℚ)) :
    (s.delays l).base = s.base ∧ (s.delays l).max = s.max
      ∧ (s.delays l).reset_time = s.reset_time := by
  induction l generalizing s with
  | nil => exact ⟨rfl, rfl, rfl⟩
  | cons p ps ih => exact ih ((s.delay p.1 p.2).2)

/-- Helper: with every interval at or under the reset threshold, the exponent
after a run of consecutive failures is the capped count of failures. -/
theorem delays_exp (l : List (ℚ × ℚ)) :
    ∀ (s : BackoffState) (k : Nat), s.max = 10 → s.exp = min k 10 →
      (∀ p ∈ l, p.1 ≤ s.reset_time) →
      (s.delays l).exp = min (k + l.length) 10 := by
  induction l with
  | nil =>
    intro s k hmax hexp hl
    simpa using hexp
  | cons p ps ih =>
    intro s k hmax hexp hl
    have hp : p.1 ≤ s.reset_time := hl p (by simp)
    have hnr : ¬ (s.reset_time < p.1) := not_lt.2 hp
    have h1 : ((s.delay p.1 p.2).2).exp = min (k + 1) 10 := by
      simp only [BackoffState.delay, if_neg hnr, hexp, hmax]
      omega
    have h2 : ((s.delay p.1 p.2).2).max = 10 := hmax
    have h3 : ∀ q ∈ ps, q.1 ≤ ((s.delay p.1 p.2).2).reset_time :=
      fun q hq => hl q (by simp [hq])
    have hrec := ih ((s.delay p.1 p.2).2) (k + 1) h2 h1 h3
    calc (s.delays (p :: ps)).exp
        = (((s.delay p.1 p.2).2).delays ps).exp := rfl
      _ = min (k + 1 + ps.length) 10 := hrec
      _ = min (k + (p :: ps).length) 10 := by
          simp only [List.length_cons]
          omega

/-- Helper: the value returned by one `delay` call lies in
`[0, base * 2 ** newExponent]`. -/
theorem delay_value_bounds (s : BackoffState) (interval r : ℚ) (hb : 0 ≤ s.base)
    (hr0 : 0 ≤ r) (hr1 : r ≤ 1) :
    0 ≤ (s.delay interval r).1
      ∧ (s.delay interval r).1 ≤ s.base * 2 ^ ((s.delay interval r).2.exp) := by
  simp only [BackoffState.delay]
  have hX : (0:ℚ) ≤ s.base * 2 ^ (min ((if s.reset_time < interval then 0 else s.exp) + 1) s.max) := by
    have h2 : (0:ℚ) ≤ 2 ^ (min ((if s.reset_time < interval then 0 else s.exp) + 1) s.max) := by
      positivity
    exact mul_nonneg hb h2
  exact ⟨mul_nonneg hr0 hX, mul_le_of_le_one_left hX hr1⟩

/-- C9: for an `ExponentialBackoff` with nonnegative base b and a uniform
sample r in [0, 1]: the delay after the very first failure lies in [0, 2*b]
and leaves the exponent at 1; after a run of n consecutive failures (each
within the reset threshold) the exponent is min(n, 10) and the next delay lies
in [0, b * 2 ** min(n+1, 10)] — so from the 10th consecutive failure on the
window stops growing; and whenever the elapsed interval strictly exceeds the
reset threshold b * 2 ** 11, the exponent is reset to 0 before the bump (so
the next delay behaves like a first failure: window [0, 2*b], exponent 1). -/
theorem backoff_spec (b r interval : ℚ) (hb : 0 ≤ b) (hr0 : 0 ≤ r) (hr1 : r ≤ 1)
    (l : List (ℚ × ℚ)) (hl : ∀ p ∈ l, p.1 ≤ (backoffInit b).reset_time) :
    (0 ≤ ((backoffInit b).delay interval r).1
        ∧ ((backoffInit b).delay interval r).1 ≤ b * 2
        ∧ ((backoffInit b).delay interval r).2.exp = 1)
      ∧ ((backoffInit b).delays l).exp = min l.length 10
      ∧ (interval ≤ (backoffInit b).reset_time →
          0 ≤ (((backoffInit b).delays l).delay interval r).1
            ∧ (((backoffInit b).delays l).delay interval r).1
                ≤ b * 2 ^ min (l.length + 1) 10
            ∧ (((backoffInit b).delays l).delay interval r).2.exp
                = min (l.length + 1) 10)
      ∧ ((backoffInit b).reset_time < interval →
          (((backoffInit b).delays l).delay interval r).2.exp = 1
            ∧ 0 ≤ (((backoffInit b).delays l).delay interval r).1
            ∧ (((backoffInit b).delays l).delay interval r).1 ≤ b * 2) := by
  obtain ⟨hbase, hmax, hreset⟩ := delays_params (backoffInit b) l
  have hmax10 : ((backoffInit b).delays l).max = 10 := by
    rw [hmax]
    rfl
  have hexp : ((backoffInit b).delays l).exp = min l.length 10 := by
    have := delays_exp l (backoffInit b) 0 rfl (by simp [backoffInit]) hl
    simpa using this
  have hfirstexp : ((backoffInit b).delay interval r).2.exp = 1 := by
    simp [BackoffState.delay, backoffInit]
  refine ⟨?_, hexp, ?_, ?_⟩
  · obtain ⟨h0, h1⟩ := delay_value_bounds (backoffInit b) interval r hb hr0 hr1
    rw [hfirstexp] at h1
    refine ⟨h0, ?_, hfirstexp⟩
    calc ((backoffInit b).delay interval r).1 ≤ (backoffInit b).base * 2 ^ 1 := h1
      _ = b * 2 := by
        show b * 2 ^ 1 = b * 2
        ring
  · intro hint
    have hnr : ¬ (((backoffInit b).delays l).reset_time < interval) := by
      rw [hreset]
      exact not_lt.2 hint
    have hstepexp : ((((backoffInit b).delays l).delay interval r).2).exp
        = min (l.length + 1) 10 := by
      simp only [BackoffState.delay, if_neg hnr, hexp, hmax10]
      omega
    obtain ⟨h0, h1⟩ := delay_value_bounds (((backoffInit b).delays l)) interval r
      (by rw [hbase]; exact hb) hr0 hr1
    rw [hstepexp, hbase] at h1
    exact ⟨h0, h1, hstepexp⟩
  · intro hrs
    have hr2 : (((backoffInit b).delays l)).reset_time < interval := by
      rw [hreset]
      exact hrs
    have hstepexp : ((((backoffInit b).delays l).delay interval r).2).exp = 1 := by
      simp only [BackoffState.delay, if_pos hr2, hmax10]
      omega
    obtain ⟨h0, h1⟩ := delay_value_bounds (((backoffInit b).delays l)) interval r
      (by rw [hbase]; exact hb) hr0 hr1
    rw [hstepexp, hbase] at h1
    refine ⟨hstepexp, h0, ?_⟩
    calc (((backoffInit b).delays l).delay interval r).1 ≤ b * 2 ^ 1 := h1
      _ = b * 2 := by ring

/-- C9 witness: the theorem applied at base 1, sample one half, interval 0 and
an empty failure history, extracting the first-failure facts. -/
theorem backoff_spec_witness :
    0 ≤ ((backoffInit 1).delay 0 (1 / 2)).1
      ∧ ((backoffInit 1).delay 0 (1 / 2)).1 ≤ 1 * 2
      ∧ ((backoffInit 1).delay 0 (1 / 2)).2.exp = 1 :=
  (backoff_spec 1 (1 / 2) 0 (by norm_num) (by norm_num) (by norm_num) []
    (by simp)).1
